import Mathlib

/-!
Verification of `src/resources/parser.py` (VisualPy AST parser).

The Python source is shallowly embedded: strings are `String`/`List Char`,
Python `int` is `Int`, `None`-able values are `Option`, exceptions are
`Except String`. Python's negative-index list/slice semantics are modelled
explicitly (`pyBound`, `pySlice`, `pyListGet`).
-/

namespace VisualPy

/-- Python `source.split('\n')`: split a character list at every newline,
keeping empty pieces; the result is always nonempty (`''.split('\n') == ['']`). -/
def splitNl : List Char → List (List Char)
  | [] => [[]]
  | c :: rest =>
    if c = '\n' then [] :: splitNl rest
    else
      match splitNl rest with
      | l :: ls => (c :: l) :: ls
      | [] => [[c]]

/-- Whitespace characters stripped by Python's `str.strip()` (ASCII part;
the unicode whitespace classes are not modelled, no claim depends on them). -/
def isPySpace (c : Char) : Bool :=
  c = ' ' ∨ c = '\t' ∨ c = '\n' ∨ c = '\r' ∨ c = '\x0b' ∨ c = '\x0c'

/-- Python `str.strip()` on a list of characters. -/
def pyStrip (l : List Char) : List Char :=
  ((l.dropWhile isPySpace).reverse.dropWhile isPySpace).reverse

/-- A comment record as produced by `extract_comments`:
`{'line': i, 'column': col, 'text': ..., 'inline': ...}`. -/
structure CommentRecord where
  line : Nat
  column : Nat
  text : String
  inline : Bool
  deriving DecidableEq, Repr

/-- The per-line `while col < len(line)` loop of `extract_comments`
(parser.py lines 28-63). `full` is the whole line (needed for
`line[:col]`), `chars` is `full.drop col`, and the loop state is
`(col, in_string, string_char)`. Each step mirrors one iteration:
triple-quote entry/exit advances 3 columns, everything else advances 1,
and an unquoted `#` records the comment and breaks out of the loop.
The `fuel` argument makes the recursion structural; every loop step
consumes at least one character, so `fuel = chars.length` is always
enough (`scanLineGo_fuel_eq` below), and the loop terminates. -/
def scanLineGo (full : List Char) (lineNo : Nat) :
    Nat → List Char → Nat → Bool → Option (List Char) → Option CommentRecord
  | 0, _, _, _, _ => none
  | _ + 1, [], _, _, _ => none
  | fuel + 1, char :: rest, col, in_string, string_char =>
    if char = '"' ∨ char = '\'' then
      if in_string = false then
        match rest with
        | c2 :: c3 :: rest2 =>
          if c2 = char ∧ c3 = char then
            scanLineGo full lineNo fuel rest2 (col + 3) true (some [char, char, char])
          else
            scanLineGo full lineNo fuel rest (col + 1) true (some [char])
        | _ =>
          scanLineGo full lineNo fuel rest (col + 1) true (some [char])
      else
        match string_char with
        | some sc =>
          if sc.length = 3 then
            match rest with
            | c2 :: c3 :: rest2 =>
              if [char, c2, c3] = sc then
                scanLineGo full lineNo fuel rest2 (col + 3) false none
              else
                scanLineGo full lineNo fuel rest (col + 1) true (some sc)
            | _ =>
              scanLineGo full lineNo fuel rest (col + 1) true (some sc)
          else if sc = [char] then
            scanLineGo full lineNo fuel rest (col + 1) false none
          else
            scanLineGo full lineNo fuel rest (col + 1) true (some sc)
        | none =>
          scanLineGo full lineNo fuel rest (col + 1) true none
    else if char = '#' ∧ in_string = false then
      some ⟨lineNo, col, String.mk (pyStrip rest), !(pyStrip (full.take col)).isEmpty⟩
    else
      scanLineGo full lineNo fuel rest (col + 1) in_string string_char

/-- Scan one source line: the loop starts with `col = 0`, `in_string = False`,
`string_char = None` (parser.py lines 24-26). -/
def scanLine (line : List Char) (lineNo : Nat) : Option CommentRecord :=
  scanLineGo line lineNo line.length line 0 false none

/-- The `for i, line in enumerate(lines, 1)` loop of `extract_comments`:
each line contributes at most one record (the loop `break`s after the
first unquoted marker). -/
def scanLines : List (List Char) → Nat → List CommentRecord
  | [], _ => []
  | l :: ls, lineNo =>
    (match scanLine l lineNo with
     | some c => [c]
     | none => []) ++ scanLines ls (lineNo + 1)

/-- `extract_comments(source)` (parser.py lines 17-67):
split the source on newlines and scan each line independently. -/
def extract_comments (source : String) : List CommentRecord :=
  scanLines (splitNl source.data) 1

/-! ## Span resolver (`get_source_segment`, parser.py lines 70-98)

Node positions are modelled as optional integers: `none` stands for a
missing attribute (or a `None` value), mirroring the
`hasattr`/`getattr(..., default)` accesses in the source. Lines are
`List Char`. Python's negative-index and clamping semantics for `l[i]`,
`l[a:b]` and `s[a:b]` are modelled exactly; `l[i]` can raise
`IndexError`, modelled with `Except`. -/

/-- The four position attributes of an AST node
(`lineno`, `col_offset`, `end_lineno`, `end_col_offset`). -/
structure Pos where
  lineno : Option Int := none
  col_offset : Option Int := none
  end_lineno : Option Int := none
  end_col_offset : Option Int := none
  deriving DecidableEq, Repr

/-- Normalize one bound of a Python slice `[a:b]` over a sequence of
length `len`: a negative bound counts from the end, then the bound is
clamped into `[0, len]`. -/
def pyBound (len : Nat) (i : Int) : Nat :=
  if i < 0 then ((len : Int) + i).toNat else min i.toNat len

/-- Python slice `l[a:b]` (step 1) on a list. -/
def pySlice {α : Type} (l : List α) (a b : Int) : List α :=
  (l.take (pyBound l.length b)).drop (pyBound l.length a)

/-- Python slice `l[a:]` on a list. -/
def pySliceFrom {α : Type} (l : List α) (a : Int) : List α :=
  l.drop (pyBound l.length a)

/-- Python indexing `l[i]`: a negative index counts from the end;
out of range raises `IndexError`. -/
def pyListGet {α : Type} (l : List α) (i : Int) : Except String α :=
  let j : Int := if i < 0 then (l.length : Int) + i else i
  if h : 0 ≤ j ∧ j.toNat < l.length then .ok (l.get ⟨j.toNat, h.2⟩)
  else .error "IndexError: list index out of range"

/-- Replace the last element of a list (`lines[-1] = f(lines[-1])`);
callers only use it on nonempty lists. -/
def setLast {α : Type} (f : α → α) : List α → List α
  | [] => []
  | [x] => [f x]
  | x :: xs => x :: setLast f xs

/-- Spec §4.1 wording, for stating C3: "trim the first line's prefix
before start col". -/
def trimFirst (sc : Nat) : List (List Char) → List (List Char)
  | [] => []
  | l :: ls => l.drop sc :: ls

/-- Spec §4.1 wording, for stating C3: "trim the last line's suffix
after end col (if end col present)". -/
def trimLastOpt (eco : Option Nat) (ls : List (List Char)) : List (List Char) :=
  match eco with
  | none => ls
  | some ec => setLast (fun l => l.take ec) ls

/-- `get_source_segment(source_lines, node)` (parser.py lines 70-98).
Returns `.ok none` where Python returns `None`, `.ok (some s)` where it
returns the substring `s`, and `.error e` where it raises (which the
Python can do, via `source_lines[start_line]` with a negative wrapped
index on a too-short list). -/
def get_source_segment (source_lines : List (List Char)) (node : Pos) :
    Except String (Option (List Char)) :=
  match node.lineno with
  | none => .ok none
  | some lineno =>
    let start_line : Int := lineno - 1
    let end_line : Int := (node.end_lineno.getD lineno) - 1
    let start_col : Int := node.col_offset.getD 0
    let end_col : Option Int := node.end_col_offset
    if (source_lines.length : Int) ≤ start_line then .ok none
    else if start_line = end_line then
      match pyListGet source_lines start_line with
      | .error e => .error e
      | .ok line =>
        match end_col with
        | some ec => .ok (some (pySlice line start_col ec))
        | none => .ok (some (pySliceFrom line start_col))
    else
      match pySlice source_lines start_line (end_line + 1) with
      | [] => .ok none
      | l0 :: ls =>
        let trimmed := pySliceFrom l0 start_col :: ls
        let trimmed :=
          match end_col with
          | some ec => setLast (fun l => pySlice l 0 ec) trimmed
          | none => trimmed
        .ok (some (List.intercalate ['\n'] trimmed))

/-! ## Tree normalizer (`node_to_dict`, parser.py lines 101-134)

The external parser's tree (spec §3 "Node"): a kind label, the four
position attributes, and named fields whose values are scalars, child
nodes, or ordered sequences of children/scalars. A scalar that is not
`None`/`str`/`int`/`float`/`bool` is opaque and carries only its `str()`
representation. The output is the Python dict the source builds,
modelled as an ordered key-value list with Python's dict-assignment
semantics (`dictSet`): assigning an existing key overwrites in place,
a new key is appended. -/

/-- A scalar field value: `None`, a bool, an int, a string, or an opaque
non-JSON object (e.g. a `complex`), carrying its `str()` representation. -/
inductive PyLeaf where
  | pynone
  | pybool (b : Bool)
  | pyint (n : Int)
  | pystr (s : String)
  | pyother (r : String)
  deriving DecidableEq, Repr

mutual
/-- A named-field value of a `Node`: scalar, child node, or list. -/
inductive PyFieldVal where
  | leaf (v : PyLeaf)
  | node (n : PyNode)
  | list (items : List PyItem)
/-- An element of an ordered-sequence field: a child node or a scalar. -/
inductive PyItem where
  | leaf (v : PyLeaf)
  | node (n : PyNode)
/-- A `Node` of the external parser's tree: kind label, positions,
ordered named fields. -/
inductive PyNode where
  | mk (type : String) (pos : Pos) (fields : List (String × PyFieldVal))
end

/-- A JSON-safe Python value as produced by `node_to_dict` (and held in
the result dict). `raw` is a non-JSON Python object that was passed
through unchanged (possible in the list arm of the field loop),
identified by its `str()` representation. -/
inductive JVal where
  | null
  | jbool (b : Bool)
  | jint (n : Int)
  | jstr (s : String)
  | raw (r : String)
  | arr (items : List JVal)
  | obj (fields : List (String × JVal))

/-- Python dict assignment `d[k] = v` on an insertion-ordered dict:
overwrite in place if the key exists, else append. -/
def dictSet (d : List (String × JVal)) (k : String) (v : JVal) : List (String × JVal) :=
  match d with
  | [] => [(k, v)]
  | (k0, v0) :: rest => if k0 = k then (k0, v) :: rest else (k0, v0) :: dictSet rest k v

/-- Python dict lookup `d[k]` on an insertion-ordered dict. -/
def lookupKV (k : String) : List (String × JVal) → Option JVal
  | [] => none
  | (k0, v) :: rest => if k0 = k then some v else lookupKV k rest

/-- The value of a key of a produced dict (absent for non-dicts). -/
def objGet (j : JVal) (k : String) : Option JVal :=
  match j with
  | .obj fs => lookupKV k fs
  | _ => none

/-- The ordered key list of a produced dict. -/
def objKeys (j : JVal) : List String :=
  match j with
  | .obj fs => fs.map Prod.fst
  | _ => []

/-- Project a JSON string out of an optional value. -/
def jstrOf : Option JVal → Option String
  | some (.jstr s) => some s
  | _ => none

/-- Lines 109-111 of parser.py: `if source: result['source'] = source` —
attach the resolved span to the dict when it is truthy (non-`None` and
nonempty). -/
def attachSource (base : List (String × JVal)) (src : Option (List Char)) :
    List (String × JVal) :=
  match src with
  | some s => if s.isEmpty then base else dictSet base "source" (.jstr (String.mk s))
  | none => base

/-- `getattr(node, attr, None)` for a position attribute, as a JSON value. -/
def optIntJ : Option Int → JVal
  | none => JVal.null
  | some n => JVal.jint n

/-- The scalar arm of the field loop (parser.py lines 126-131):
`None`/`str`/`int`/`float`/`bool` pass through, any other value is
coerced with `str(value)`. -/
def leafScalar : PyLeaf → JVal
  | .pynone => .null
  | .pybool b => .jbool b
  | .pyint n => .jint n
  | .pystr s => .jstr s
  | .pyother r => .jstr r

/-- A list element that is not an AST node is appended unchanged
(parser.py line 124): an opaque object stays opaque (no coercion). -/
def leafRaw : PyLeaf → JVal
  | .pynone => .null
  | .pybool b => .jbool b
  | .pyint n => .jint n
  | .pystr s => .jstr s
  | .pyother r => .raw r

mutual
/-- `node_to_dict(node, source_lines)` (parser.py lines 101-134): build
the dict with the kind label and the four position attributes, attach
`source` when `get_source_segment` yields a truthy (nonempty) string,
then process every named field in order with dict assignment. An
exception from `get_source_segment` or from a recursive call
propagates. -/
def node_to_dict (node : PyNode) (source_lines : List (List Char)) : Except String JVal :=
  match node with
  | .mk ty pos fields =>
    let base : List (String × JVal) :=
      [("type", .jstr ty), ("lineno", optIntJ pos.lineno),
       ("col_offset", optIntJ pos.col_offset), ("end_lineno", optIntJ pos.end_lineno),
       ("end_col_offset", optIntJ pos.end_col_offset)]
    match get_source_segment source_lines pos with
    | .error e => .error e
    | .ok src =>
      match fields_fold fields source_lines (attachSource base src) with
      | .error e => .error e
      | .ok d => .ok (.obj d)

/-- The `for field, value in ast.iter_fields(node)` loop (parser.py
lines 117-131), threading the result dict. -/
def fields_fold (fs : List (String × PyFieldVal)) (source_lines : List (List Char))
    (acc : List (String × JVal)) : Except String (List (String × JVal)) :=
  match fs with
  | [] => .ok acc
  | (f, v) :: rest =>
    match fieldval_to_jval v source_lines with
    | .error e => .error e
    | .ok jv => fields_fold rest source_lines (dictSet acc f jv)

/-- Dispatch on one field value: list / AST node / scalar
(parser.py lines 118-131). -/
def fieldval_to_jval (v : PyFieldVal) (source_lines : List (List Char)) :
    Except String JVal :=
  match v with
  | .leaf l => .ok (leafScalar l)
  | .node n => node_to_dict n source_lines
  | .list items =>
    match items_map items source_lines with
    | .error e => .error e
    | .ok js => .ok (.arr js)

/-- The inner `for item in value` loop over a sequence field
(parser.py lines 121-124): nodes recurse, anything else is appended
unchanged. -/
def items_map (items : List PyItem) (source_lines : List (List Char)) :
    Except String (List JVal) :=
  match items with
  | [] => .ok []
  | .node n :: rest =>
    match node_to_dict n source_lines with
    | .error e => .error e
    | .ok j =>
      match items_map rest source_lines with
      | .error e => .error e
      | .ok js => .ok (j :: js)
  | .leaf l :: rest =>
    match items_map rest source_lines with
    | .error e => .error e
    | .ok js => .ok (leafRaw l :: js)
end

/-! ## Pipeline controller (`parse_python` and `main`, parser.py lines 137-192)

`ast.parse` is the external collaborator (spec §6): its outcome is a
parameter. It either returns a tree, raises a `SyntaxError` (with
`e.msg` possibly `None` or empty, `e.lineno`, `e.offset`), or raises
some other exception. Reading stdin may also fail, which is the only
failure `main`'s own handler can see in this model (`extract_comments`
is total and `parse_python` catches everything else; serialization and
printing are out of scope). -/

/-- An error record `{'message': ..., 'lineno': ..., 'col_offset': ...}`. -/
structure ErrorRecord where
  message : String
  lineno : Option Int
  col_offset : Option Int
  deriving DecidableEq, Repr

/-- The top-level result dict of `parse_python`. -/
structure ParseResult where
  success : Bool
  ast : Option JVal
  comments : List CommentRecord
  errors : List ErrorRecord

/-- The outcome of the external `ast.parse(source)` call: a tree, a
structured `SyntaxError` (carrying `e.msg`, `str(e)`, `e.lineno`,
`e.offset`), or any other exception (carrying `str(e)`). -/
inductive AstParseOutcome where
  | tree (t : PyNode)
  | syntaxError (msg : Option String) (str_e : String)
      (lineno : Option Int) (offset : Option Int)
  | otherError (str_e : String)

/-- `parse_python(source)` (parser.py lines 137-171). Comments are
scanned before the `try` block; inside it, `ast.parse`'s outcome is
dispatched, a `SyntaxError` is reported with its position, and any
other exception — from `ast.parse` itself or raised during
normalization (`node_to_dict`) — is caught by the generic handler. -/
def parse_python (source : String) (astParse : AstParseOutcome) : ParseResult :=
  let source_lines := splitNl source.data
  let comments := extract_comments source
  match astParse with
  | .tree t =>
    match node_to_dict t source_lines with
    | .ok j => ⟨true, some j, comments, []⟩
    | .error e => ⟨false, none, comments, [⟨e, none, none⟩]⟩
  | .syntaxError msg str_e ln off =>
    ⟨false, none, comments,
      [⟨(match msg with
         | some m => if m = "" then str_e else m
         | none => str_e), ln, off⟩]⟩
  | .otherError e => ⟨false, none, comments, [⟨e, none, none⟩]⟩

/-- `main()` (parser.py lines 174-192): read stdin, run `parse_python`,
print the result with exit code 0; if reading stdin fails, print a
fallback result with a `Parser error: ` prefixed message, no comments,
and exit code 1. Returns (emitted result, exit code). -/
def main (stdin : Except String String) (astParse : String → AstParseOutcome) :
    ParseResult × Nat :=
  match stdin with
  | .ok source => (parse_python source (astParse source), 0)
  | .error e => (⟨false, none, [], [⟨"Parser error: " ++ e, none, none⟩]⟩, 1)

/-! ## Claims -/

/-- C1: a comment marker that appears only inside a string literal is not
reported: `x = "a # b"` (marker inside a single-quoted string) yields no
comments, and `s = """a # b"""` on one line (marker inside a
triple-delimited string) yields no comments. -/
theorem C1_marker_inside_string_not_reported :
    extract_comments "x = \"a # b\"" = [] ∧
    extract_comments "s = \"\"\"a # b\"\"\"" = [] := by
  exact ⟨by decide, by decide⟩

/-- C7: for every source text and every outcome of the external parser,
the result of `parse_python` has the scanned comments (always present,
independent of parse success), has a root AST exactly when `success` is
true, and has an empty error list exactly when `success` is true. -/
theorem C7_result_invariants (source : String) (astParse : AstParseOutcome) :
    (parse_python source astParse).comments = extract_comments source ∧
    ((parse_python source astParse).ast.isSome ↔ (parse_python source astParse).success = true) ∧
    ((parse_python source astParse).errors = [] ↔ (parse_python source astParse).success = true) := by
  cases astParse with
  | tree t =>
    cases h : node_to_dict t (splitNl source.data) <;>
      simp [parse_python, h]
  | syntaxError msg str_e ln off => simp [parse_python]
  | otherError e => simp [parse_python]

/-- C6: when the scanner is outside any string and the current character
is the comment marker, it records the rest of the line (stripped) as the
comment text at the current line and column, sets `inline` exactly when
some non-whitespace character precedes the marker on the line, and stops
scanning the line (the record is produced immediately); in particular
`y = 1  # note` yields exactly one record, inline, with text `note`. -/
theorem C6_marker_records_and_stops :
    (∀ (full rest : List Char) (lineNo col fuel : Nat) (string_char : Option (List Char)),
      scanLineGo full lineNo (fuel + 1) ('#' :: rest) col false string_char =
        some ⟨lineNo, col, String.mk (pyStrip rest), !(pyStrip (full.take col)).isEmpty⟩) ∧
    extract_comments "y = 1  # note" = [⟨1, 7, "note", true⟩] := by
  constructor
  · intro full rest lineNo col fuel string_char
    simp [scanLineGo]
  · decide

/-- C8: string-mode state does not carry across lines: the scan of a list
of lines is the concatenation of independent per-line scans (so a string
literal left open on an earlier line cannot affect a later line), and
concretely an unterminated string opened on line 1 does not suppress the
comment on line 2. -/
theorem C8_no_cross_line_state :
    (∀ (l1 l2 : List (List Char)) (lineNo : Nat),
      scanLines (l1 ++ l2) lineNo =
        scanLines l1 lineNo ++ scanLines l2 (lineNo + l1.length)) ∧
    extract_comments "s = \"abc\n# hi" = [⟨2, 0, "hi", false⟩] := by
  constructor
  · intro l1 l2 lineNo
    induction l1 generalizing lineNo with
    | nil => simp [scanLines]
    | cons l ls ih =>
      simp [scanLines, ih, List.append_assoc]
      ring_nf
  · decide

/-- C2 counterexample: a failure during normalization that is not a
syntax failure does NOT produce an empty comments list, a prefixed
message, or exit code 1. With source `# hi` and a tree whose root has
`lineno = -1` (so `node_to_dict` raises `IndexError` inside the `try`
block), the generic `except Exception` handler in `parse_python` keeps
the already-scanned comments, uses the bare exception message, and the
process exits normally (code 0). -/
theorem C2_counterexample :
    parse_python "# hi" (.tree (.mk "Module" ⟨some (-1), none, none, none⟩ [])) =
      ⟨false, none, [⟨1, 0, "hi", false⟩],
        [⟨"IndexError: list index out of range", none, none⟩]⟩ ∧
    (parse_python "# hi"
        (.tree (.mk "Module" ⟨some (-1), none, none, none⟩ []))).comments ≠ [] ∧
    (main (.ok "# hi")
        (fun _ => .tree (.mk "Module" ⟨some (-1), none, none, none⟩ []))).2 = 0 := by
  refine ⟨rfl, ?_, rfl⟩
  decide

/-- C2 (amended): only failures that escape `parse_python` — in this
model, a failure of the initial input read — produce the generic
`Parser error: `-prefixed record with null position, an empty comments
list, and exit code 1; a non-syntax failure raised during normalization
is caught inside `parse_python` and produces success=false, root=null,
the already-scanned (possibly non-empty) comments, one ErrorRecord with
the bare exception message and null position, and exit code 0. -/
theorem C2_amended_unexpected_failure_paths :
    (∀ (e : String) (astParse : String → AstParseOutcome),
      main (.error e) astParse =
        (⟨false, none, [], [⟨"Parser error: " ++ e, none, none⟩]⟩, 1)) ∧
    (∀ (source : String) (t : PyNode) (err : String),
      node_to_dict t (splitNl source.data) = .error err →
        parse_python source (.tree t) =
          ⟨false, none, extract_comments source, [⟨err, none, none⟩]⟩ ∧
        (main (.ok source) (fun _ => .tree t)).2 = 0) := by
  constructor
  · intro e astParse
    rfl
  · intro source t err h
    exact ⟨by simp [parse_python, h], rfl⟩

/-- C2 witness: the amended statement applied at concrete inputs: a
failed read with message `boom`, and the `lineno = -1` tree of the
counterexample. -/
theorem C2_amended_witness :
    main (.error "boom") (fun _ => .otherError "x") =
      (⟨false, none, [], [⟨"Parser error: " ++ "boom", none, none⟩]⟩, 1) ∧
    (parse_python "# hi" (.tree (.mk "Module" ⟨some (-1), none, none, none⟩ [])) =
        ⟨false, none, extract_comments "# hi",
          [⟨"IndexError: list index out of range", none, none⟩]⟩ ∧
      (main (.ok "# hi")
          (fun _ => .tree (.mk "Module" ⟨some (-1), none, none, none⟩ []))).2 = 0) :=
  ⟨C2_amended_unexpected_failure_paths.1 "boom" (fun _ => .otherError "x"),
   C2_amended_unexpected_failure_paths.2 "# hi"
     (.mk "Module" ⟨some (-1), none, none, none⟩ []) "IndexError: list index out of range" rfl⟩

/-- C9 counterexample: the span resolver is not total on inconsistent
position fields. A node with `lineno = 0` (the spec's lines are 1-based,
so line 0 does not exist) makes the computed start index `-1`: on an
empty lines list `source_lines[-1]` raises `IndexError`, and on a
nonempty lines list it silently returns a substring of the LAST line
instead of absence. -/
theorem C9_counterexample :
    get_source_segment [] ⟨some 0, none, none, none⟩ =
      .error "IndexError: list index out of range" ∧
    get_source_segment ["abc".data] ⟨some 0, none, none, none⟩ = .ok (some "abc".data) :=
  ⟨rfl, rfl⟩

/-- Python list indexing with a nonnegative in-range index succeeds. -/
theorem pyListGet_ok_of_bounds {α : Type} (l : List α) (i : Int)
    (h0 : 0 ≤ i) (hlt : i < (l.length : Int)) :
    ∃ a, pyListGet l i = Except.ok a := by
  have hnneg : ¬ i < 0 := by omega
  simp only [pyListGet, hnneg, if_false]
  split
  · exact ⟨_, rfl⟩
  · rename_i hcond
    exact absurd ⟨h0, by omega⟩ hcond

/-- C9 (amended): restricted to 1-based start lines — the only values the
external parser produces — the span resolver is total: it returns
`none` when the start line is absent, never raises when `lineno ≥ 1`,
and returns absence whenever the start line is beyond the end of the
lines sequence. -/
theorem C9_amended_total_for_one_based :
    (∀ (lines : List (List Char)) (pos : Pos), pos.lineno = none →
      get_source_segment lines pos = .ok none) ∧
    (∀ (lines : List (List Char)) (pos : Pos) (l : Int),
      pos.lineno = some l → 1 ≤ l →
      (∃ r, get_source_segment lines pos = .ok r) ∧
      ((lines.length : Int) ≤ l - 1 → get_source_segment lines pos = .ok none)) := by
  constructor
  · intro lines pos h
    simp [get_source_segment, h]
  · intro lines pos l h h1
    by_cases hg : (lines.length : Int) ≤ l - 1
    · exact ⟨⟨none, by simp [get_source_segment, h, hg]⟩, fun _ => by
        simp [get_source_segment, h, hg]⟩
    · refine ⟨?_, fun hc => absurd hc hg⟩
      simp only [get_source_segment, h]
      rw [if_neg hg]
      by_cases he : (l - 1 : Int) = pos.end_lineno.getD l - 1
      · rw [if_pos he]
        obtain ⟨a, hok⟩ := pyListGet_ok_of_bounds lines (l - 1) (by omega) (by omega)
        rw [hok]
        cases pos.end_col_offset with
        | none => exact ⟨_, rfl⟩
        | some ec => exact ⟨_, rfl⟩
      · rw [if_neg he]
        cases hsl : pySlice lines (l - 1) (pos.end_lineno.getD l - 1 + 1) with
        | nil => exact ⟨none, rfl⟩
        | cons l0 ls =>
          cases pos.end_col_offset with
          | none => exact ⟨_, rfl⟩
          | some ec => exact ⟨_, rfl⟩

/-- C9 witness: the amended statement applied at concrete inputs
(absent start line; start line 5 against a two-character single line,
which is out of range). -/
theorem C9_witness :
    get_source_segment [] ⟨none, none, none, none⟩ = .ok none ∧
    (∃ r, get_source_segment ["ab".data] ⟨some 5, none, none, none⟩ = .ok r) ∧
    ((([("ab".data)] : List (List Char)).length : Int) ≤ 5 - 1 →
      get_source_segment ["ab".data] ⟨some 5, none, none, none⟩ = .ok none) :=
  ⟨C9_amended_total_for_one_based.1 [] ⟨none, none, none, none⟩ rfl,
   (C9_amended_total_for_one_based.2 ["ab".data] ⟨some 5, none, none, none⟩ 5 rfl
      (by decide)).1,
   (C9_amended_total_for_one_based.2 ["ab".data] ⟨some 5, none, none, none⟩ 5 rfl
      (by decide)).2⟩

set_option maxHeartbeats 1000000 in
/-- Any two fuel values that are at least the number of remaining
characters give the same scan result: every loop iteration consumes at
least one character, so `chars.length` iterations always suffice. -/
theorem scanLineGo_fuel_eq (full : List Char) (lineNo : Nat) :
    ∀ (F : Nat) (chars : List Char), chars.length ≤ F →
      ∀ (f1 f2 col : Nat) (s : Bool) (sc : Option (List Char)),
        chars.length ≤ f1 → chars.length ≤ f2 →
        scanLineGo full lineNo f1 chars col s sc =
          scanLineGo full lineNo f2 chars col s sc := by
  intro F
  induction F with
  | zero =>
    intro chars hF f1 f2 col s sc h1 h2
    have hc : chars = [] := List.eq_nil_of_length_eq_zero (Nat.le_zero.mp hF)
    subst hc
    cases f1 <;> cases f2 <;> rfl
  | succ F ih =>
    intro chars hF f1 f2 col s sc h1 h2
    cases chars with
    | nil => cases f1 <;> cases f2 <;> rfl
    | cons c rest =>
      obtain ⟨g1, rfl⟩ : ∃ g, f1 = g + 1 := ⟨f1 - 1, by simp at h1; omega⟩
      obtain ⟨g2, rfl⟩ : ∃ g, f2 = g + 1 := ⟨f2 - 1, by simp at h2; omega⟩
      rcases rest with _ | ⟨c2, _ | ⟨c3, rest2⟩⟩ <;>
        rcases sc with _ | scv <;>
          simp only [scanLineGo] <;>
            split_ifs <;>
              first
                | exact ih _
                    (by simp only [List.length_cons, List.length_nil] at hF ⊢ <;> omega)
                    _ _ _ _ _
                    (by simp only [List.length_cons, List.length_nil] at h1 ⊢ <;> omega)
                    (by simp only [List.length_cons, List.length_nil] at h2 ⊢ <;> omega)
                | rfl

set_option maxHeartbeats 1000000 in
/-- Line numbers of emitted records: a record produced by the per-line
scan carries the line number the scan was started with. -/
theorem scanLineGo_line (full : List Char) (lineNo : Nat) :
    ∀ (fuel : Nat) (chars : List Char) (col : Nat) (s : Bool)
      (sc : Option (List Char)) (c : CommentRecord),
      scanLineGo full lineNo fuel chars col s sc = some c → c.line = lineNo := by
  intro fuel
  induction fuel with
  | zero =>
    intro chars col s sc c h
    exact absurd h (by simp [scanLineGo])
  | succ fuel ih =>
    intro chars col s sc c h
    cases chars with
    | nil => exact absurd h (by simp [scanLineGo])
    | cons ch rest =>
      rcases rest with _ | ⟨c2, _ | ⟨c3, rest2⟩⟩ <;>
        rcases sc with _ | scv <;>
          simp only [scanLineGo] at h <;>
            revert h <;>
              split_ifs <;>
                intro h <;>
                  first
                    | exact ih _ _ _ _ _ h
                    | (cases h; rfl)

/-- Each record emitted by `scanLines ls n` has a line number in
`[n, n + ls.length)`. -/
theorem scanLines_mem_line :
    ∀ (ls : List (List Char)) (n : Nat) (c : CommentRecord),
      c ∈ scanLines ls n → n ≤ c.line ∧ c.line < n + ls.length := by
  intro ls
  induction ls with
  | nil => intro n c h; exact absurd h (by simp [scanLines])
  | cons l ls ih =>
    intro n c h
    simp only [scanLines, List.mem_append] at h
    rcases h with h | h
    · cases hs : scanLine l n with
      | none => rw [hs] at h; exact absurd h (by simp)
      | some c0 =>
        rw [hs] at h
        simp only [List.mem_singleton] at h
        subst h
        have := scanLineGo_line l n l.length l 0 false none _ hs
        simp only [List.length_cons]
        omega
    · have := ih (n + 1) c h
      simp only [List.length_cons]
      omega

/-- `scanLines` emits at most one record per line. -/
theorem scanLines_length :
    ∀ (ls : List (List Char)) (n : Nat), (scanLines ls n).length ≤ ls.length := by
  intro ls
  induction ls with
  | nil => intro n; simp [scanLines]
  | cons l ls ih =>
    intro n
    simp only [scanLines, List.length_append, List.length_cons]
    have h1 : (match scanLine l n with
        | some c => [c]
        | none => ([] : List CommentRecord)).length ≤ 1 := by
      cases scanLine l n <;> simp
    have := ih (n + 1)
    omega

/-- Records are emitted in strictly increasing line order. -/
theorem scanLines_pairwise :
    ∀ (ls : List (List Char)) (n : Nat),
      (scanLines ls n).Pairwise (fun a b => a.line < b.line) := by
  intro ls
  induction ls with
  | nil => intro n; simp [scanLines]
  | cons l ls ih =>
    intro n
    simp only [scanLines]
    refine List.pairwise_append.mpr ⟨?_, ih (n + 1), ?_⟩
    · cases scanLine l n <;> simp
    · intro a ha b hb
      have hb' := scanLines_mem_line ls (n + 1) b hb
      cases hs : scanLine l n with
      | none => rw [hs] at ha; exact absurd ha (by simp)
      | some c0 =>
        rw [hs] at ha
        simp only [List.mem_singleton] at ha
        subst ha
        have := scanLineGo_line l n l.length l 0 false none _ hs
        omega

/-- C10: the comment scanner is total and bounded. Fuel equal to the
number of remaining characters always suffices for the per-line loop
(the scan position strictly advances on every step, so the loop
terminates after at most one step per character), and for every source
text the scanner emits at most one record per source line, in strictly
increasing line order. -/
theorem C10_scanner_total_one_per_line :
    (∀ (full : List Char) (lineNo k : Nat) (chars : List Char) (col : Nat)
        (s : Bool) (sc : Option (List Char)),
      scanLineGo full lineNo (chars.length + k) chars col s sc =
        scanLineGo full lineNo chars.length chars col s sc) ∧
    (∀ source : String,
      (extract_comments source).length ≤ (splitNl source.data).length ∧
      (extract_comments source).Pairwise (fun a b => a.line < b.line)) := by
  constructor
  · intro full lineNo k chars col s sc
    exact scanLineGo_fuel_eq full lineNo chars.length chars le_rfl
      (chars.length + k) chars.length col s sc (Nat.le_add_right _ _) le_rfl
  · intro source
    exact ⟨scanLines_length _ 1, scanLines_pairwise _ 1⟩

/-- C5: field values are normalized as follows. An ordered-sequence
field is mapped elementwise: each element that is a node is recursively
normalized and each scalar element passes through unchanged (an opaque
scalar in a sequence stays opaque, `leafRaw`). A field that is itself a
node is recursively normalized. Scalar fields pass booleans, numbers,
strings and null through unchanged, and coerce any other scalar kind to
its string representation (`.jstr r` for an opaque value with `str()`
form `r`). -/
theorem C5_field_value_handling :
    (∀ (items : List PyItem) (lines : List (List Char)) (js : List JVal),
      items_map items lines = .ok js →
      List.Forall₂ (fun it j =>
        (∀ n, it = PyItem.node n → node_to_dict n lines = .ok j) ∧
        (∀ l, it = PyItem.leaf l → j = leafRaw l)) items js) ∧
    (∀ (n : PyNode) (lines : List (List Char)),
      fieldval_to_jval (.node n) lines = node_to_dict n lines) ∧
    (∀ lines : List (List Char),
      fieldval_to_jval (.leaf .pynone) lines = .ok .null) ∧
    (∀ (b : Bool) (lines : List (List Char)),
      fieldval_to_jval (.leaf (.pybool b)) lines = .ok (.jbool b)) ∧
    (∀ (n : Int) (lines : List (List Char)),
      fieldval_to_jval (.leaf (.pyint n)) lines = .ok (.jint n)) ∧
    (∀ (s : String) (lines : List (List Char)),
      fieldval_to_jval (.leaf (.pystr s)) lines = .ok (.jstr s)) ∧
    (∀ (r : String) (lines : List (List Char)),
      fieldval_to_jval (.leaf (.pyother r)) lines = .ok (.jstr r)) := by
  refine ⟨?_, fun n lines => rfl, fun lines => rfl, fun b lines => rfl,
    fun n lines => rfl, fun s lines => rfl, fun r lines => rfl⟩
  intro items lines
  induction items with
  | nil =>
    intro js h
    simp only [items_map] at h
    cases h
    exact List.Forall₂.nil
  | cons it rest ih =>
    intro js h
    cases it with
    | node n =>
      simp only [items_map] at h
      split at h
      · exact Except.noConfusion h
      · rename_i j hn
        split at h
        · exact Except.noConfusion h
        · rename_i js' hr
          cases h
          exact List.Forall₂.cons
            ⟨fun n' hn' => by cases hn'; exact hn,
             fun l hl => PyItem.noConfusion hl⟩
            (ih _ hr)
    | leaf l =>
      simp only [items_map] at h
      split at h
      · exact Except.noConfusion h
      · rename_i js' hr
        cases h
        exact List.Forall₂.cons
          ⟨fun n' hn' => PyItem.noConfusion hn',
           fun l' hl => by cases hl; rfl⟩
          (ih _ hr)

/-- C5 witness: the elementwise statement applied to a concrete
two-element sequence (one node, one opaque scalar). -/
theorem C5_witness :
    List.Forall₂ (fun it j =>
      (∀ n, it = PyItem.node n → node_to_dict n ([] : List (List Char)) = .ok j) ∧
      (∀ l, it = PyItem.leaf l → j = leafRaw l))
      [PyItem.node (.mk "Load" ⟨none, none, none, none⟩ []),
       PyItem.leaf (.pyother "Ellipsis")]
      [JVal.obj [("type", .jstr "Load"), ("lineno", .null), ("col_offset", .null),
        ("end_lineno", .null), ("end_col_offset", .null)], JVal.raw "Ellipsis"] :=
  C5_field_value_handling.1
    [PyItem.node (.mk "Load" ⟨none, none, none, none⟩ []),
     PyItem.leaf (.pyother "Ellipsis")] ([] : List (List Char)) _ rfl

/-- `take` with an upper bound at least the length is plain `take`. -/
theorem take_min_of_length_le {α : Type} (l : List α) (n len : Nat) (h : l.length ≤ len) :
    l.take (min n len) = l.take n := by
  rcases le_total n len with h1 | h1
  · rw [Nat.min_eq_left h1]
  · rw [Nat.min_eq_right h1, List.take_of_length_le h,
      List.take_of_length_le (le_trans h h1)]

/-- `drop` with an upper bound at least the length is plain `drop`. -/
theorem drop_min_of_length_le {α : Type} (l : List α) (n len : Nat) (h : l.length ≤ len) :
    l.drop (min n len) = l.drop n := by
  rcases le_total n len with h1 | h1
  · rw [Nat.min_eq_left h1]
  · rw [Nat.min_eq_right h1, List.drop_of_length_le h,
      List.drop_of_length_le (le_trans h h1)]

/-- `pySliceFrom` with a nonnegative start is plain `drop`. -/
theorem pySliceFrom_nonneg {α : Type} (l : List α) (a : Int) (ha : 0 ≤ a) :
    pySliceFrom l a = l.drop a.toNat := by
  simp only [pySliceFrom, pyBound]
  rw [if_neg (by omega : ¬ a < 0)]
  exact drop_min_of_length_le l a.toNat l.length le_rfl

/-- `pySlice` with nonnegative bounds is `take` then `drop`. -/
theorem pySlice_nonneg {α : Type} (l : List α) (a b : Int) (ha : 0 ≤ a) (hb : 0 ≤ b) :
    pySlice l a b = (l.take b.toNat).drop a.toNat := by
  simp only [pySlice, pyBound]
  rw [if_neg (by omega : ¬ b < 0), if_neg (by omega : ¬ a < 0)]
  rw [take_min_of_length_le l b.toNat l.length le_rfl]
  exact drop_min_of_length_le _ a.toNat l.length (by rw [List.length_take]; omega)

/-- Python `l[:b]` with a nonnegative bound is plain `take`. -/
theorem pySlice_zero_nonneg {α : Type} (l : List α) (b : Int) (hb : 0 ≤ b) :
    pySlice l 0 b = l.take b.toNat := by
  rw [pySlice_nonneg l 0 b le_rfl hb]
  simp

/-- Python list indexing with a nonnegative in-range index is `getD`. -/
theorem pyListGet_nonneg_eq {α : Type} (l : List α) (i : Int) (d : α)
    (h0 : 0 ≤ i) (hlt : i < (l.length : Int)) :
    pyListGet l i = .ok (l.getD i.toNat d) := by
  have hnneg : ¬ i < 0 := by omega
  have hl : i.toNat < l.length := by omega
  simp only [pyListGet, hnneg, if_false]
  rw [dif_pos ⟨h0, hl⟩, List.getD_eq_getElem l d hl]
  rfl

/-- `setLast` only depends on the function's values. -/
theorem setLast_congr {α : Type} (f g : α → α) (h : ∀ x, f x = g x) :
    ∀ l : List α, setLast f l = setLast g l := by
  intro l
  induction l with
  | nil => rfl
  | cons x xs ih =>
    cases xs with
    | nil => simp [setLast, h]
    | cons y ys =>
      simp only [setLast]
      rw [ih]

/-- C3: behavior of the span resolver on in-range, 1-based positions.
When the end line is absent or equals the start line, the result is the
single line's substring from the start column to the end column (or to
the line end if the end column is absent). When the start line strictly
precedes the end line, the result is the inclusive slice of lines from
start to end, with the first line's prefix before the start column
trimmed and the last line's suffix after the end column trimmed (when
present), rejoined with newline separators. When the computed multi-line
range is empty, the resolver returns nothing rather than failing. -/
theorem C3_span_resolver_behavior :
    (∀ (lines : List (List Char)) (pos : Pos) (l sc : Int),
      pos.lineno = some l → 1 ≤ l → (l - 1 : Int) < (lines.length : Int) →
      pos.col_offset = some sc → 0 ≤ sc →
      (pos.end_lineno = none ∨ pos.end_lineno = some l) →
      (pos.end_col_offset = none →
        get_source_segment lines pos =
          .ok (some ((lines.getD (l - 1).toNat []).drop sc.toNat))) ∧
      (∀ ec : Int, pos.end_col_offset = some ec → 0 ≤ ec →
        get_source_segment lines pos =
          .ok (some (((lines.getD (l - 1).toNat []).take ec.toNat).drop sc.toNat)))) ∧
    (∀ (lines : List (List Char)) (pos : Pos) (l sc e : Int),
      pos.lineno = some l → 1 ≤ l → (l - 1 : Int) < (lines.length : Int) →
      pos.col_offset = some sc → 0 ≤ sc →
      pos.end_lineno = some e → l < e →
      (pos.end_col_offset = none ∨ ∃ ec, pos.end_col_offset = some ec ∧ 0 ≤ ec) →
      get_source_segment lines pos =
        .ok (some (List.intercalate ['\n']
          (trimLastOpt (pos.end_col_offset.map Int.toNat)
            (trimFirst sc.toNat
              ((lines.drop (l - 1).toNat).take (e + 1 - l).toNat)))))) ∧
    (∀ (lines : List (List Char)) (pos : Pos) (l e : Int),
      pos.lineno = some l → pos.end_lineno = some e → e ≠ l →
      ¬ ((lines.length : Int) ≤ l - 1) →
      pySlice lines (l - 1) (e - 1 + 1) = [] →
      get_source_segment lines pos = .ok none) := by
  refine ⟨?_, ?_, ?_⟩
  · intro lines pos l sc hl h1 hlen hsc hsc0 hel
    have hng : ¬ ((lines.length : Int) ≤ l - 1) := by omega
    have hgetD : pos.end_lineno.getD l = l := by
      rcases hel with h | h <;> simp [h]
    have hok := pyListGet_nonneg_eq lines (l - 1) ([] : List Char) (by omega) (by omega)
    constructor
    · intro hec
      simp only [get_source_segment, hl, hgetD, hsc, hec, Option.getD_some, hng,
        if_false, eq_self_iff_true, if_true, hok]
      rw [pySliceFrom_nonneg _ _ hsc0]
    · intro ec hec hec0
      simp only [get_source_segment, hl, hgetD, hsc, hec, Option.getD_some, hng,
        if_false, eq_self_iff_true, if_true, hok]
      rw [pySlice_nonneg _ sc ec hsc0 hec0]
  · intro lines pos l sc e hl h1 hlen hsc hsc0 hee hlt heco
    have hng : ¬ ((lines.length : Int) ≤ l - 1) := by omega
    have hne : ¬ ((l - 1 : Int) = e - 1) := by omega
    have hslice : pySlice lines (l - 1) (e - 1 + 1) =
        (lines.drop (l - 1).toNat).take (e + 1 - l).toNat := by
      have he : (e - 1 + 1 : Int) = e := by ring
      rw [he, pySlice_nonneg lines (l - 1) e (by omega) (by omega), List.drop_take]
      congr 1
      omega
    cases hmatch : pySlice lines (l - 1) (e - 1 + 1) with
    | nil =>
      exfalso
      rw [hslice] at hmatch
      have : ((lines.drop (l - 1).toNat).take (e + 1 - l).toNat).length = 0 := by
        rw [hmatch]; rfl
      rw [List.length_take, List.length_drop] at this
      omega
    | cons l0 ls' =>
      have hr : (lines.drop (l - 1).toNat).take (e + 1 - l).toNat = l0 :: ls' := by
        rw [← hslice, hmatch]
      simp only [get_source_segment, hl, hee, hsc, Option.getD_some]
      rw [if_neg hng, if_neg hne, hmatch]
      rw [hr]
      simp only [trimFirst]
      rcases heco with hecn | ⟨ec, hecs, hec0⟩
      · simp only [hecn, Option.map_none', trimLastOpt]
        rw [pySliceFrom_nonneg _ _ hsc0]
      · simp only [hecs, Option.map_some', trimLastOpt]
        rw [pySliceFrom_nonneg _ _ hsc0]
        rw [setLast_congr (fun x => pySlice x 0 ec) (fun x => x.take ec.toNat)
          (fun x => pySlice_zero_nonneg x ec hec0)]
  · intro lines pos l e hl hee hne hng hempty
    simp only [get_source_segment, hl, hee, Option.getD_some]
    rw [if_neg hng, if_neg (by omega : ¬ ((l : Int) - 1 = e - 1)), hempty]

/-- C3 witness: the three arms applied at concrete inputs over the lines
`ab`, `cd`, `ef`: a single-line span without and with an end column, a
multi-line span from line 1 column 1 to line 3 column 1, and an
inverted (empty-range) span. -/
theorem C3_witness :
    get_source_segment ["ab".data, "cd".data, "ef".data] ⟨some 1, some 1, none, none⟩ =
      .ok (some (((["ab".data, "cd".data, "ef".data] :
        List (List Char)).getD ((1 : Int) - 1).toNat []).drop (1 : Int).toNat)) ∧
    get_source_segment ["ab".data, "cd".data, "ef".data] ⟨some 1, some 1, some 1, some 2⟩ =
      .ok (some ((((["ab".data, "cd".data, "ef".data] :
        List (List Char)).getD ((1 : Int) - 1).toNat []).take
          (2 : Int).toNat).drop (1 : Int).toNat)) ∧
    get_source_segment ["ab".data, "cd".data, "ef".data] ⟨some 1, some 1, some 3, some 1⟩ =
      .ok (some (List.intercalate ['\n']
        (trimLastOpt ((some (1 : Int)).map Int.toNat)
          (trimFirst (1 : Int).toNat
            (((["ab".data, "cd".data, "ef".data] :
              List (List Char)).drop ((1 : Int) - 1).toNat).take
                ((3 : Int) + 1 - 1).toNat))))) ∧
    get_source_segment ["ab".data, "cd".data, "ef".data] ⟨some 2, none, some 1, none⟩ =
      .ok none :=
  ⟨(C3_span_resolver_behavior.1 ["ab".data, "cd".data, "ef".data]
      ⟨some 1, some 1, none, none⟩ 1 1 rfl (by decide) (by decide) rfl
      (by decide) (Or.inl rfl)).1 rfl,
   (C3_span_resolver_behavior.1 ["ab".data, "cd".data, "ef".data]
      ⟨some 1, some 1, some 1, some 2⟩ 1 1 rfl (by decide) (by decide) rfl
      (by decide) (Or.inr rfl)).2 2 rfl (by decide),
   C3_span_resolver_behavior.2.1 ["ab".data, "cd".data, "ef".data]
      ⟨some 1, some 1, some 3, some 1⟩ 1 1 3 rfl (by decide) (by decide) rfl
      (by decide) rfl (by decide) (Or.inr ⟨1, rfl, by decide⟩),
   C3_span_resolver_behavior.2.2 ["ab".data, "cd".data, "ef".data]
      ⟨some 2, none, some 1, none⟩ 2 1 rfl rfl (by decide) (by decide) (by decide)⟩

/-- Assigning one key does not change the binding of another key. -/
theorem dictSet_lookup_ne (d : List (String × JVal)) (k k' : String) (v : JVal)
    (h : k' ≠ k) : lookupKV k' (dictSet d k v) = lookupKV k' d := by
  induction d with
  | nil =>
    simp only [dictSet, lookupKV]
    rw [if_neg (fun he => h he.symm)]
  | cons p rest ih =>
    obtain ⟨k0, v0⟩ := p
    simp only [dictSet]
    by_cases h0 : k0 = k
    · subst h0
      rw [if_pos rfl]
      simp only [lookupKV]
      rw [if_neg (fun he => h he.symm), if_neg (fun he => h he.symm)]
    · rw [if_neg h0]
      simp only [lookupKV]
      by_cases h1 : k0 = k'
      · rw [if_pos h1, if_pos h1]
      · rw [if_neg h1, if_neg h1]
        exact ih

/-- Keys after a dict assignment: the assigned key joins the key set. -/
theorem dictSet_keys_mem (d : List (String × JVal)) (k k' : String) (v : JVal) :
    k' ∈ (dictSet d k v).map Prod.fst ↔ k' ∈ d.map Prod.fst ∨ k' = k := by
  induction d with
  | nil => simp [dictSet]
  | cons p rest ih =>
    obtain ⟨k0, v0⟩ := p
    simp only [dictSet]
    by_cases h0 : k0 = k
    · subst h0
      rw [if_pos rfl]
      simp only [List.map_cons, List.mem_cons]
      tauto
    · rw [if_neg h0]
      simp only [List.map_cons, List.mem_cons, ih]
      tauto

/-- Folding the field loop over names disjoint from `k` preserves the
binding of `k`. -/
theorem fields_fold_lookup (lines : List (List Char)) (k : String) :
    ∀ (fs : List (String × PyFieldVal)) (acc d : List (String × JVal)),
      k ∉ fs.map Prod.fst → fields_fold fs lines acc = .ok d →
      lookupKV k d = lookupKV k acc := by
  intro fs
  induction fs with
  | nil =>
    intro acc d hk h
    simp only [fields_fold] at h
    cases h
    rfl
  | cons p rest ih =>
    obtain ⟨f, v⟩ := p
    intro acc d hk h
    simp only [List.map_cons, List.mem_cons, not_or] at hk
    obtain ⟨hkf, hkr⟩ := hk
    simp only [fields_fold] at h
    split at h
    · exact Except.noConfusion h
    · rename_i jv hjv
      rw [ih (dictSet acc f jv) d hkr h, dictSet_lookup_ne acc f k jv hkf]

/-- Folding the field loop over names disjoint from `k` preserves
whether `k` is a key. -/
theorem fields_fold_keys (lines : List (List Char)) (k : String) :
    ∀ (fs : List (String × PyFieldVal)) (acc d : List (String × JVal)),
      k ∉ fs.map Prod.fst → fields_fold fs lines acc = .ok d →
      (k ∈ d.map Prod.fst ↔ k ∈ acc.map Prod.fst) := by
  intro fs
  induction fs with
  | nil =>
    intro acc d hk h
    simp only [fields_fold] at h
    cases h
    rfl
  | cons p rest ih =>
    obtain ⟨f, v⟩ := p
    intro acc d hk h
    simp only [List.map_cons, List.mem_cons, not_or] at hk
    obtain ⟨hkf, hkr⟩ := hk
    simp only [fields_fold] at h
    split at h
    · exact Except.noConfusion h
    · rename_i jv hjv
      rw [ih (dictSet acc f jv) d hkr h, dictSet_keys_mem acc f k jv]
      simp [hkf]

/-- C4 counterexample: the claim fails on two counts. Normalizing a
`Pass` node with no named fields over the line `pass` yields a dict
with a sixth, `source`, field (so the output is not "exactly the kind
and the position fields"); and normalizing an `ExceptHandler` node,
whose grammar has a named field called `type`, overwrites the kind
label, so the output does not contain the kind label at all. -/
theorem C4_counterexample :
    node_to_dict (.mk "Pass" ⟨some 1, some 0, some 1, some 4⟩ []) ["pass".data] =
      .ok (.obj [("type", .jstr "Pass"), ("lineno", .jint 1), ("col_offset", .jint 0),
        ("end_lineno", .jint 1), ("end_col_offset", .jint 4), ("source", .jstr "pass")]) ∧
    objKeys (.obj [("type", .jstr "Pass"), ("lineno", .jint 1), ("col_offset", .jint 0),
        ("end_lineno", .jint 1), ("end_col_offset", .jint 4), ("source", .jstr "pass")]) ≠
      ["type", "lineno", "col_offset", "end_lineno", "end_col_offset"] ∧
    node_to_dict (.mk "ExceptHandler" ⟨none, none, none, none⟩
        [("type", .leaf (.pystr "ValueError"))]) [] =
      .ok (.obj [("type", .jstr "ValueError"), ("lineno", .null), ("col_offset", .null),
        ("end_lineno", .null), ("end_col_offset", .null)]) ∧
    jstrOf (objGet (.obj [("type", .jstr "ValueError"), ("lineno", .null),
        ("col_offset", .null), ("end_lineno", .null), ("end_col_offset", .null)]) "type") ≠
      some "ExceptHandler" :=
  ⟨rfl, by decide, rfl, by decide⟩

/-- Assigning a key absent from a dict appends it at the end. -/
theorem dictSet_fresh (d : List (String × JVal)) (k : String) (v : JVal)
    (h : k ∉ d.map Prod.fst) : dictSet d k v = d ++ [(k, v)] := by
  induction d with
  | nil => rfl
  | cons p rest ih =>
    obtain ⟨k0, v0⟩ := p
    simp only [List.map_cons, List.mem_cons, not_or] at h
    obtain ⟨h1, h2⟩ := h
    simp only [dictSet]
    rw [if_neg (fun he => h1 he.symm), ih h2]
    rfl

/-- Attaching a span does not change the binding of a key other than
`source`. -/
theorem attachSource_lookup_ne (base : List (String × JVal))
    (src : Option (List Char)) (k : String) (h : k ≠ "source") :
    lookupKV k (attachSource base src) = lookupKV k base := by
  cases src with
  | none => rfl
  | some s =>
    simp only [attachSource]
    by_cases hs : s.isEmpty
    · rw [if_pos hs]
    · rw [if_neg hs]
      exact dictSet_lookup_ne base "source" k _ h

/-- When `source` is not already a key, attaching a span introduces the
`source` key exactly when the resolved span is a nonempty string. -/
theorem attachSource_keys (base : List (String × JVal))
    (src : Option (List Char)) (hb : "source" ∉ base.map Prod.fst) :
    ("source" ∈ (attachSource base src).map Prod.fst ↔
      ∃ s, src = some s ∧ s ≠ []) := by
  cases src with
  | none => simp [attachSource, hb]
  | some s =>
    simp only [attachSource]
    by_cases hs : s.isEmpty
    · rw [if_pos hs]
      rw [List.isEmpty_eq_true] at hs
      subst hs
      simp [hb]
    · rw [if_neg hs]
      rw [List.isEmpty_eq_true] at hs
      rw [dictSet_keys_mem]
      simp [hs]

/-- When `source` is not already a key, attaching a span appends either
nothing or the single `source` binding. -/
theorem attachSource_eq_append (base : List (String × JVal))
    (src : Option (List Char)) (hb : "source" ∉ base.map Prod.fst) :
    attachSource base src = base ++
      (match src with
       | some s => if s.isEmpty then [] else [("source", JVal.jstr (String.mk s))]
       | none => []) := by
  cases src with
  | none => simp [attachSource]
  | some s =>
    simp only [attachSource]
    by_cases hs : s.isEmpty
    · rw [if_pos hs, if_pos hs]
      simp
    · rw [if_neg hs, if_neg hs]
      exact dictSet_fresh base "source" _ hb

/-- C4 (amended): for a node whose field names avoid the reserved keys
`type`/`lineno`/`col_offset`/`end_lineno`/`end_col_offset`/`source`,
the output dict binds the kind label and the four position fields
(absent positions become null), has a `source` key exactly when span
resolution yields a nonempty string, and a node with no named fields
yields exactly the kind, the position fields, and — when span
resolution yields a nonempty string — the `source` field, nothing
else. -/
theorem C4_amended_output_shape :
    ∀ (ty : String) (pos : Pos) (fields : List (String × PyFieldVal))
      (lines : List (List Char)) (j : JVal),
      (∀ f, f ∈ fields.map Prod.fst →
        f ∉ ["type", "lineno", "col_offset", "end_lineno", "end_col_offset", "source"]) →
      node_to_dict (.mk ty pos fields) lines = .ok j →
      objGet j "type" = some (.jstr ty) ∧
      objGet j "lineno" = some (optIntJ pos.lineno) ∧
      objGet j "col_offset" = some (optIntJ pos.col_offset) ∧
      objGet j "end_lineno" = some (optIntJ pos.end_lineno) ∧
      objGet j "end_col_offset" = some (optIntJ pos.end_col_offset) ∧
      (("source" ∈ objKeys j) ↔
        ∃ s, get_source_segment lines pos = .ok (some s) ∧ s ≠ []) ∧
      (fields = [] →
        j = .obj ([("type", JVal.jstr ty), ("lineno", optIntJ pos.lineno),
          ("col_offset", optIntJ pos.col_offset), ("end_lineno", optIntJ pos.end_lineno),
          ("end_col_offset", optIntJ pos.end_col_offset)] ++
          (match get_source_segment lines pos with
           | .ok (some s) => if s.isEmpty then [] else [("source", JVal.jstr (String.mk s))]
           | _ => []))) := by
  intro ty pos fields lines j hfresh hnd
  have hty : "type" ∉ fields.map Prod.fst := fun hm => hfresh _ hm (by decide)
  have hln : "lineno" ∉ fields.map Prod.fst := fun hm => hfresh _ hm (by decide)
  have hco : "col_offset" ∉ fields.map Prod.fst := fun hm => hfresh _ hm (by decide)
  have hel : "end_lineno" ∉ fields.map Prod.fst := fun hm => hfresh _ hm (by decide)
  have hecf : "end_col_offset" ∉ fields.map Prod.fst := fun hm => hfresh _ hm (by decide)
  have hso : "source" ∉ fields.map Prod.fst := fun hm => hfresh _ hm (by decide)
  have hbase : "source" ∉ ([("type", JVal.jstr ty), ("lineno", optIntJ pos.lineno),
      ("col_offset", optIntJ pos.col_offset), ("end_lineno", optIntJ pos.end_lineno),
      ("end_col_offset", optIntJ pos.end_col_offset)]).map Prod.fst := by simp
  simp only [node_to_dict] at hnd
  split at hnd
  · exact Except.noConfusion hnd
  · rename_i src hsrc
    split at hnd
    · exact Except.noConfusion hnd
    · rename_i d hfold
      cases hnd
      refine ⟨?_, ?_, ?_, ?_, ?_, ?_, ?_⟩
      · rw [objGet, fields_fold_lookup lines "type" fields _ d hty hfold,
          attachSource_lookup_ne _ src "type" (by decide)]
        rfl
      · rw [objGet, fields_fold_lookup lines "lineno" fields _ d hln hfold,
          attachSource_lookup_ne _ src "lineno" (by decide)]
        rfl
      · rw [objGet, fields_fold_lookup lines "col_offset" fields _ d hco hfold,
          attachSource_lookup_ne _ src "col_offset" (by decide)]
        rfl
      · rw [objGet, fields_fold_lookup lines "end_lineno" fields _ d hel hfold,
          attachSource_lookup_ne _ src "end_lineno" (by decide)]
        rfl
      · rw [objGet, fields_fold_lookup lines "end_col_offset" fields _ d hecf hfold,
          attachSource_lookup_ne _ src "end_col_offset" (by decide)]
        rfl
      · rw [objKeys, fields_fold_keys lines "source" fields _ d hso hfold,
          attachSource_keys _ src hbase]
        constructor
        · rintro ⟨s, hssome, hne⟩
          subst hssome
          exact ⟨s, hsrc, hne⟩
        · rintro ⟨s, hs, hne⟩
          rw [hsrc] at hs
          injection hs with hs2
          exact ⟨s, hs2.symm ▸ rfl, hne⟩
      · intro hfe
        subst hfe
        simp only [fields_fold] at hfold
        cases hfold
        rw [hsrc]
        rw [attachSource_eq_append _ src hbase]
        cases src with
        | none => rfl
        | some s => rfl

/-- C4 witness: the amended statement applied to a `Load` context node
(no named fields, no position attributes), over an empty lines list. -/
theorem C4_amended_witness :
    objGet (.obj [("type", JVal.jstr "Load"), ("lineno", JVal.null),
      ("col_offset", JVal.null), ("end_lineno", JVal.null),
      ("end_col_offset", JVal.null)]) "type" = some (.jstr "Load") ∧
    objGet (.obj [("type", JVal.jstr "Load"), ("lineno", JVal.null),
      ("col_offset", JVal.null), ("end_lineno", JVal.null),
      ("end_col_offset", JVal.null)]) "lineno" = some (optIntJ none) ∧
    objGet (.obj [("type", JVal.jstr "Load"), ("lineno", JVal.null),
      ("col_offset", JVal.null), ("end_lineno", JVal.null),
      ("end_col_offset", JVal.null)]) "col_offset" = some (optIntJ none) ∧
    objGet (.obj [("type", JVal.jstr "Load"), ("lineno", JVal.null),
      ("col_offset", JVal.null), ("end_lineno", JVal.null),
      ("end_col_offset", JVal.null)]) "end_lineno" = some (optIntJ none) ∧
    objGet (.obj [("type", JVal.jstr "Load"), ("lineno", JVal.null),
      ("col_offset", JVal.null), ("end_lineno", JVal.null),
      ("end_col_offset", JVal.null)]) "end_col_offset" = some (optIntJ none) ∧
    (("source" ∈ objKeys (.obj [("type", JVal.jstr "Load"), ("lineno", JVal.null),
      ("col_offset", JVal.null), ("end_lineno", JVal.null),
      ("end_col_offset", JVal.null)])) ↔
      ∃ s, get_source_segment [] ⟨none, none, none, none⟩ = .ok (some s) ∧ s ≠ []) ∧
    (([] : List (String × PyFieldVal)) = [] →
      JVal.obj [("type", JVal.jstr "Load"), ("lineno", JVal.null),
        ("col_offset", JVal.null), ("end_lineno", JVal.null),
        ("end_col_offset", JVal.null)] =
      .obj ([("type", JVal.jstr "Load"), ("lineno", optIntJ none),
        ("col_offset", optIntJ none), ("end_lineno", optIntJ none),
        ("end_col_offset", optIntJ none)] ++
        (match get_source_segment [] ⟨none, none, none, none⟩ with
         | .ok (some s) => if s.isEmpty then [] else [("source", JVal.jstr (String.mk s))]
         | _ => []))) :=
  C4_amended_output_shape "Load" ⟨none, none, none, none⟩ [] []
    (.obj [("type", JVal.jstr "Load"), ("lineno", JVal.null),
      ("col_offset", JVal.null), ("end_lineno", JVal.null),
      ("end_col_offset", JVal.null)])
    (by simp) rfl

end VisualPy
